import Mathlib

/-!
# Verification of the Camera analytics pipeline

Shallow embedding of the Python sources of the `Camera` repository
(`src/Ka/software/analytics_module.py`, `main.py`, `security_module.py`)
together with proofs of the frozen claims about them.

Modelling conventions:
* Python `int` is `ℤ`; `time.time()` results are `ℚ` passed explicitly as a
  `now` parameter (the up-to-three `time.time()` calls inside one Python
  method differ by microseconds; they are modelled as a single instant).
* Python dicts (`person_tracks`, `people_count_history`) are association
  lists in insertion order, which is exactly the iteration order of a
  Python 3.7+ dict; updating an existing key keeps its position, deleting
  removes it, a fresh key is appended.
* The source compares `np.sqrt(dx**2+dy**2) < closest_dist` and `< 50`;
  the embedding compares squared distances (`d2 < 2500`, `d2 < best`),
  which is order-equivalent since `sqrt` is strictly monotone.
* `numpy` float32 heatmap cells hold only the exact values 0.0 and 1.0,
  represented in `ℚ`.
-/

namespace Camera

/-- A detection bounding box, as produced by `Detector.extract_detections`:
integer pixel corners `x1 y1 x2 y2`. -/
structure Det where
  x1 : ℤ
  y1 : ℤ
  x2 : ℤ
  y2 : ℤ
deriving DecidableEq

/-- Centroid of a detection as computed in `_update_tracks`:
`cx = (x1 + x2) // 2`, `cy = (y1 + y2) // 2` (Python floor division). -/
def centroid (d : Det) : ℤ × ℤ :=
  ((d.x1 + d.x2).fdiv 2, (d.y1 + d.y2).fdiv 2)

/-- The `current_centroids` dict of `_update_tracks`: detection centroids
keyed by `0, 1, 2, ...` in detection order. -/
def centroidsOf (dets : List Det) : List (ℕ × (ℤ × ℤ)) :=
  (dets.map centroid).enum

/-- Squared Euclidean distance between two points.  The source computes
`np.sqrt(...)`; all of its comparisons are modelled on squares. -/
def d2 (p q : ℤ × ℤ) : ℤ :=
  (p.1 - q.1) ^ 2 + (p.2 - q.2) ^ 2

/-- One entry of `self.person_tracks`: position, entry time, last-seen. -/
structure Track where
  position : ℤ × ℤ
  entry_time : ℚ
  last_seen : ℚ
deriving DecidableEq

/-- The mutable state of `AnalyticsModule` relevant to tracking and
statistics (the heatmap is modelled separately below). -/
structure AnalyticsState where
  person_tracks : List (ℕ × Track)
  track_counter : ℕ
  frame_count : ℕ
  people_count_history : List (ℕ × ℕ)
deriving DecidableEq

/-- Upper bound carried by the running best candidate of the inner scan:
`closest_dist` starts at `float('inf')`, modelled as `⊤`. -/
def accBound : Option (ℤ × ℕ × (ℤ × ℤ)) → WithTop ℤ
  | none => ⊤
  | some a => (a.1 : WithTop ℤ)

/-- The inner loop of `_update_tracks` for one existing track: scan all
centroids, keep the nearest one that is not yet matched and is within the
maximum distance 50 (squared: 2500).  `acc` is the best candidate so far,
as `(squared distance, index, position)`. -/
def scanCentroids (cs : List (ℕ × (ℤ × ℤ))) (matched : List ℕ)
    (oldPos : ℤ × ℤ) (acc : Option (ℤ × ℕ × (ℤ × ℤ))) :
    Option (ℤ × ℕ × (ℤ × ℤ)) :=
  match cs with
  | [] => acc
  | (idx, pos) :: rest =>
    if idx ∉ matched ∧ (d2 pos oldPos : WithTop ℤ) < accBound acc ∧ d2 pos oldPos < 2500 then
      scanCentroids rest matched oldPos (some (d2 pos oldPos, idx, pos))
    else
      scanCentroids rest matched oldPos acc

/-- Result of the track-matching loop: the surviving tracks (in original
dict order, positions updated), the accumulated `matched_tracks` set, and
the assignment `(track id, centroid index)` produced along the way. -/
structure MatchResult where
  tracks : List (ℕ × Track)
  matched : List ℕ
  asg : List (ℕ × ℕ)
deriving DecidableEq

/-- The outer loop of `_update_tracks`: iterate existing tracks in dict
order; a track that finds an unmatched centroid within range keeps its id
with updated position and last-seen and marks the centroid matched; a
track that finds none is deleted immediately. -/
def matchTracks (tracks : List (ℕ × Track)) (cs : List (ℕ × (ℤ × ℤ)))
    (now : ℚ) (matched : List ℕ) : MatchResult :=
  match tracks with
  | [] => ⟨[], matched, []⟩
  | (tid, tr) :: rest =>
    match scanCentroids cs matched tr.position none with
    | some (_, idx, pt) =>
      let r := matchTracks rest cs now (idx :: matched)
      ⟨(tid, { tr with position := pt, last_seen := now }) :: r.tracks,
       r.matched, (tid, idx) :: r.asg⟩
    | none => matchTracks rest cs now matched

/-- The new-track loop of `_update_tracks`: every centroid not in
`matched_tracks` spawns one new track with a freshly incremented id,
entry time and last-seen both `now`.  Returns the spawned tracks in
insertion order together with the final `track_counter`. -/
def spawnNew (cs : List (ℕ × (ℤ × ℤ))) (matched : List ℕ) (ctr : ℕ)
    (now : ℚ) : List (ℕ × Track) × ℕ :=
  match cs with
  | [] => ([], ctr)
  | (idx, pos) :: rest =>
    if idx ∈ matched then spawnNew rest matched ctr now
    else
      let r := spawnNew rest matched (ctr + 1) now
      ((ctr + 1, ⟨pos, now, now⟩) :: r.1, r.2)

/-- Model of `AnalyticsModule._update_tracks`: match existing tracks greedily, evict
unmatched ones, then spawn a new track per unmatched centroid. -/
def update_tracks (s : AnalyticsState) (dets : List Det) (now : ℚ) :
    AnalyticsState :=
  let cs := centroidsOf dets
  let r := matchTracks s.person_tracks cs now []
  let sp := spawnNew cs r.matched s.track_counter now
  { s with person_tracks := r.tracks ++ sp.1, track_counter := sp.2 }

/-- Model of `AnalyticsModule._calculate_avg_dwell_time`: mean of `now - entry_time`
over the current tracks, `0.0` when there are none. -/
def calculate_avg_dwell_time (tracks : List (ℕ × Track)) (now : ℚ) : ℚ :=
  if tracks = [] then 0
  else (tracks.map (fun e => now - e.2.entry_time)).sum / tracks.length

/-- Overwrite-or-append on an association list: the effect of
`d[k] = v` on a Python dict (existing key keeps its position). -/
def setBin (h : List (ℕ × ℕ)) (k v : ℕ) : List (ℕ × ℕ) :=
  if k ∈ h.map Prod.fst then
    h.map (fun e => if e.1 = k then (k, v) else e)
  else h ++ [(k, v)]

/-- The dictionary returned by `AnalyticsModule.update`. -/
structure UpdateResult where
  people_count : ℕ
  active_tracks : ℕ
  average_dwell_time : ℚ
deriving DecidableEq

/-- Model of `AnalyticsModule.update` (tracking/statistics part; the heatmap field
is modelled separately): increment `frame_count`, record the person count
under history key `frame_count // 30`, update tracks when people counting
is enabled, and return the summary dict. -/
def update (enable_counting : Bool) (s : AnalyticsState) (dets : List Det)
    (now : ℚ) : AnalyticsState × UpdateResult :=
  let s1 := { s with frame_count := s.frame_count + 1 }
  let s2 := { s1 with
    people_count_history := setBin s1.people_count_history (s1.frame_count / 30) dets.length }
  let s3 := if enable_counting then update_tracks s2 dets now else s2
  (s3, ⟨dets.length, s3.person_tracks.length, calculate_avg_dwell_time s3.person_tracks now⟩)

/-- Model of `AnalyticsModule.reset_statistics`: clear history and tracks, zero the
frame count and the track counter. -/
def reset_statistics (_s : AnalyticsState) : AnalyticsState :=
  ⟨[], 0, 0, []⟩

/-- The fresh state built by `AnalyticsModule.__init__`. -/
def initState : AnalyticsState := ⟨[], 0, 0, []⟩

/-- The centroid indices matched by the existing tracks in one
`_update_tracks` call (the final `matched_tracks` set). -/
def matchedOf (s : AnalyticsState) (dets : List Det) (now : ℚ) : List ℕ :=
  (matchTracks s.person_tracks (centroidsOf dets) now []).matched

/-- The track-to-centroid assignment produced by one `_update_tracks`
call: pairs `(track id, centroid index)` for each matched track. -/
def asgOf (s : AnalyticsState) (dets : List Det) (now : ℚ) : List (ℕ × ℕ) :=
  (matchTracks s.person_tracks (centroidsOf dets) now []).asg

/-- The ids of the tracks newly created by one `_update_tracks` call. -/
def spawnedKeys (s : AnalyticsState) (dets : List Det) (now : ℚ) : List ℕ :=
  ((spawnNew (centroidsOf dets) (matchedOf s dets now) s.track_counter now).1).map Prod.fst

/-- All track ids issued over a run of consecutive `update` calls (with
people counting enabled and no intervening reset), in creation order. -/
def issuedAlong (s : AnalyticsState) : List (List Det × ℚ) → List ℕ
  | [] => []
  | (dets, now) :: ops =>
      spawnedKeys s dets now ++ issuedAlong (update true s dets now).1 ops

/-! ## Heatmap (`_update_heatmap`, `reset_heatmap`)

The heatmap is a `heatmap_resolution`-sized float32 array; a cell is
addressed as `(x, y)` with `x` the cv2 column and `y` the cv2 row.
`cv2.circle(heatmap, (hm_x, hm_y), 10, 1.0, -1)` draws a filled disc of
radius 10 around the centre, writing the constant intensity 1.0 into every
covered cell that lies inside the array and leaving all others untouched. -/

/-- Python `int(...)` truncation toward zero on a rational. -/
def pyInt (q : ℚ) : ℤ :=
  if 0 ≤ q then ⌊q⌋ else -⌊-q⌋

/-- The heatmap coordinates targeted for a detection in `_update_heatmap`:
`center = int((x1+x2)/2), int((y1+y2)/2)` then proportional scaling
`hm = int((center / frame) * map)` in each axis. -/
def heatCenter (frame_w frame_h map_w map_h : ℕ) (d : Det) : ℤ × ℤ :=
  let center_x := pyInt ((d.x1 + d.x2 : ℚ) / 2)
  let center_y := pyInt ((d.y1 + d.y2 : ℚ) / 2)
  (pyInt (((center_x : ℚ) / frame_w) * map_w),
   pyInt (((center_y : ℚ) / frame_h) * map_h))

/-- Effect of one `cv2.circle(..., radius 10, intensity 1.0, filled)` call
on the grid: cells inside the disc and inside the `map_w × map_h` bounds
are overwritten with 1, all other cells keep their value. -/
def paintDisc (map_w map_h : ℕ) (c : ℤ × ℤ) (hm : ℕ → ℕ → ℚ) :
    ℕ → ℕ → ℚ :=
  fun x y =>
    if x < map_w ∧ y < map_h ∧ ((x : ℤ) - c.1) ^ 2 + ((y : ℤ) - c.2) ^ 2 ≤ 100
    then 1 else hm x y

/-- Model of `AnalyticsModule._update_heatmap`: one filled circle per detection,
in detection order.  (The source wraps the loop in a catch-all `except`;
with a well-formed frame no exception occurs and the loop is total as
modelled here.) -/
def update_heatmap (map_w map_h frame_w frame_h : ℕ) (dets : List Det)
    (hm : ℕ → ℕ → ℚ) : ℕ → ℕ → ℚ :=
  match dets with
  | [] => hm
  | d :: rest =>
      update_heatmap map_w map_h frame_w frame_h rest
        (paintDisc map_w map_h (heatCenter frame_w frame_h map_w map_h d) hm)

/-- One heatmap-affecting operation: an `update` call carrying the frame
dimensions and detections, or `reset_heatmap`. -/
inductive HeatOp where
  | update (frame_w frame_h : ℕ) (dets : List Det)
  | reset
deriving DecidableEq

/-- Apply one heatmap operation. `reset_heatmap` reinstalls the all-zero
grid (`np.zeros`). -/
def applyHeatOp (map_w map_h : ℕ) (hm : ℕ → ℕ → ℚ) : HeatOp → (ℕ → ℕ → ℚ)
  | .update fw fh dets => update_heatmap map_w map_h fw fh dets hm
  | .reset => fun _ _ => 0

/-- The heatmap grid after a sequence of operations, starting from the
all-zero grid built in `__init__`. -/
def runHeat (map_w map_h : ℕ) (ops : List HeatOp) : ℕ → ℕ → ℚ :=
  ops.foldl (applyHeatOp map_w map_h) (fun _ _ => 0)

/-! ## `CameraApp` FPS state (`main.py`)

`fps_counter` serves both as the processed-frame counter reported by
`/api/status` (`frames_processed`) and as the numerator of the rolling FPS
estimate; `get_fps` zeroes it whenever more than one second has elapsed
since the window started. -/

/-- The `CameraApp` fields driving the FPS/frame counters. -/
structure CameraApp where
  running : Bool
  fps_counter : ℕ
  last_fps_time : ℚ
deriving DecidableEq

/-- Model of `CameraApp.get_fps`: when more than 1 second elapsed since
`last_fps_time`, return `fps_counter / elapsed` and reset the window
(counter to 0, window start to `now`); otherwise return 0 and leave the
state unchanged. -/
def get_fps (s : CameraApp) (now : ℚ) : ℚ × CameraApp :=
  if 1 < now - s.last_fps_time then
    ((s.fps_counter : ℚ) / (now - s.last_fps_time),
     { s with fps_counter := 0, last_fps_time := now })
  else (0, s)

/-- Counter effect of `CameraApp.process_frame`: the info overlay calls
`self.get_fps()` (with its reset side effect), then `fps_counter += 1`. -/
def process_frame_fps (s : CameraApp) (now : ℚ) : CameraApp :=
  let s1 := (get_fps s now).2
  { s1 with fps_counter := s1.fps_counter + 1 }

/-- Counter effect of a `/api/status` read: the handler reads
`frames_processed` and then calls `self.get_fps()`. -/
def status_route (s : CameraApp) (now : ℚ) : CameraApp :=
  (get_fps s now).2

/-! ## Unknown-face alerts (`main.py` `process_frame`, `security_module.py`) -/

/-- One face as returned by `SecurityModule.detect_faces`: a scaled-back
location and the name produced by `_recognize_face` (`"Unknown"` when no
known face is within the matching threshold). -/
structure Face where
  top : ℤ
  right : ℤ
  bottom : ℤ
  left : ℤ
  name : String
deriving DecidableEq

/-- The `is_known` field set by `detect_faces`: `name != "Unknown"`. -/
def Face.is_known (f : Face) : Bool :=
  f.name ≠ "Unknown"

/-- An alert as passed to `SecurityModule.generate_alert`. -/
structure Alert where
  alert_type : String
  severity : String
  name : String
  location : ℤ × ℤ × ℤ × ℤ
deriving DecidableEq

/-- The unknown-face alerts emitted by one `CameraApp.process_frame` call.
The source gates on `self.security.face_recognition` — the handle that is
non-`None` exactly when the `face_recognition` library imported — and on
`len(person_detections) > 0`; the `security.enable_face_recognition`
config flag is read in `SecurityModule.__init__` but never consulted
here, so the parameter is unused exactly as in the source. -/
def unknown_face_alerts (_enable_face_recognition : Bool)
    (face_recognition_available : Bool) (person_detections : List Det)
    (faces : List Face) : List Alert :=
  if face_recognition_available ∧ 0 < person_detections.length then
    (faces.filter (fun f => !f.is_known)).map
      (fun f => ⟨"unknown_face", "critical", f.name, (f.top, f.right, f.bottom, f.left)⟩)
  else []

/-! ## Lemmas about the inner centroid scan -/

theorem scan_isSome (cs : List (ℕ × (ℤ × ℤ))) (m : List ℕ) (p : ℤ × ℤ)
    (a : ℤ × ℕ × (ℤ × ℤ)) : (scanCentroids cs m p (some a)).isSome := by
  induction cs generalizing a with
  | nil => rfl
  | cons c rest ih =>
    obtain ⟨idx, pos⟩ := c
    rw [scanCentroids]
    split
    · exact ih _
    · exact ih _

/-- A successful scan result that did not come from the accumulator is a
not-yet-matched centroid of the list within the distance threshold. -/
theorem scan_some_spec (cs : List (ℕ × (ℤ × ℤ))) (m : List ℕ) (p : ℤ × ℤ)
    (acc : Option (ℤ × ℕ × (ℤ × ℤ))) (d : ℤ) (i : ℕ) (pt : ℤ × ℤ)
    (h : scanCentroids cs m p acc = some (d, i, pt)) :
    acc = some (d, i, pt) ∨ ((i, pt) ∈ cs ∧ i ∉ m ∧ d = d2 pt p ∧ d2 pt p < 2500) := by
  induction cs generalizing acc with
  | nil => exact Or.inl h
  | cons c rest ih =>
    obtain ⟨idx, pos⟩ := c
    rw [scanCentroids] at h
    by_cases hc : idx ∉ m ∧ (d2 pos p : WithTop ℤ) < accBound acc ∧ d2 pos p < 2500
    · rw [if_pos hc] at h
      rcases ih _ h with heq | hmem
      · right
        have hd : d2 pos p = d := by
          have := congrArg (fun o => (o.getD (0, 0, (0, 0))).1) heq
          simpa using this
        have hi : idx = i := by
          have := congrArg (fun o => (o.getD (0, 0, (0, 0))).2.1) heq
          simpa using this
        have hp : pos = pt := by
          have := congrArg (fun o => (o.getD (0, 0, (0, 0))).2.2) heq
          simpa using this
        subst hd hi hp
        exact ⟨List.mem_cons_self _ _, hc.1, rfl, hc.2.2⟩
      · exact Or.inr ⟨List.mem_cons_of_mem _ hmem.1, hmem.2⟩
    · rw [if_neg hc] at h
      rcases ih _ h with heq | hmem
      · exact Or.inl heq
      · exact Or.inr ⟨List.mem_cons_of_mem _ hmem.1, hmem.2⟩

/-- With an empty accumulator, the scan fails exactly when every centroid
is already matched or out of range. -/
theorem scan_none_iff (cs : List (ℕ × (ℤ × ℤ))) (m : List ℕ) (p : ℤ × ℤ) :
    scanCentroids cs m p none = none ↔
      ∀ c ∈ cs, c.1 ∈ m ∨ ¬ d2 c.2 p < 2500 := by
  induction cs with
  | nil => simp [scanCentroids]
  | cons c rest ih =>
    obtain ⟨idx, pos⟩ := c
    rw [scanCentroids]
    by_cases hc : idx ∉ m ∧ (d2 pos p : WithTop ℤ) < accBound none ∧ d2 pos p < 2500
    · rw [if_pos hc]
      constructor
      · intro hres
        have := scan_isSome rest m p (d2 pos p, idx, pos)
        rw [hres] at this
        exact absurd this (by simp)
      · intro hall
        rcases hall (idx, pos) (List.mem_cons_self _ _) with hmem | hfar
        · exact absurd hmem hc.1
        · exact absurd hc.2.2 hfar
    · rw [if_neg hc]
      rw [ih]
      constructor
      · intro hall
        intro e he
        rcases List.mem_cons.mp he with heq | hmem
        · subst heq
          by_cases hm : idx ∈ m
          · exact Or.inl hm
          · right
            intro hlt
            exact hc ⟨hm, by simp [accBound], hlt⟩
        · exact hall e hmem
      · intro hall e he
        exact hall e (List.mem_cons_of_mem _ he)

/-! ## Lemmas about the track-matching loop -/

/-- The surviving tracks are, in order, exactly the assigned track ids. -/
theorem mt_tracks_keys (tracks : List (ℕ × Track)) (cs : List (ℕ × (ℤ × ℤ)))
    (now : ℚ) (m : List ℕ) :
    (matchTracks tracks cs now m).tracks.map Prod.fst
      = (matchTracks tracks cs now m).asg.map Prod.fst := by
  induction tracks generalizing m with
  | nil => rfl
  | cons t rest ih =>
    obtain ⟨tid, tr⟩ := t
    rw [matchTracks]
    cases hscan : scanCentroids cs m tr.position none with
    | none => exact ih m
    | some a =>
      obtain ⟨d, idx, pt⟩ := a
      simpa using ih (idx :: m)

/-- Every assignment entry pairs an existing track with a centroid of the
input list that was unmatched on entry and lies strictly within the
maximum distance (squared: 2500) of the track's old position. -/
theorem mt_asg_spec (tracks : List (ℕ × Track)) (cs : List (ℕ × (ℤ × ℤ)))
    (now : ℚ) (m : List ℕ) :
    ∀ e ∈ (matchTracks tracks cs now m).asg,
      e.2 ∉ m ∧ ∃ tr, (e.1, tr) ∈ tracks ∧
        ∃ pt, (e.2, pt) ∈ cs ∧ d2 pt tr.position < 2500 := by
  induction tracks generalizing m with
  | nil => intro e he; exact absurd he (by simp [matchTracks])
  | cons t rest ih =>
    obtain ⟨tid, tr⟩ := t
    rw [matchTracks]
    cases hscan : scanCentroids cs m tr.position none with
    | none =>
      intro e he
      obtain ⟨h1, tr', h2, h3⟩ := ih m e he
      exact ⟨h1, tr', List.mem_cons_of_mem _ h2, h3⟩
    | some a =>
      obtain ⟨d, idx, pt⟩ := a
      intro e he
      rcases List.mem_cons.mp he with heq | hmem
      · subst heq
        rcases scan_some_spec cs m tr.position none d idx pt hscan with habs | hok
        · exact absurd habs (by simp)
        · exact ⟨hok.2.1, tr, List.mem_cons_self _ _, pt, hok.1, hok.2.2.2⟩
      · obtain ⟨h1, tr', h2, h3⟩ := ih (idx :: m) e hmem
        exact ⟨fun hmm => h1 (List.mem_cons_of_mem _ hmm), tr',
          List.mem_cons_of_mem _ h2, h3⟩

/-- The assigned centroid indices are pairwise distinct and disjoint from
the initially matched set. -/
theorem mt_asg_snd_nodup (tracks : List (ℕ × Track)) (cs : List (ℕ × (ℤ × ℤ)))
    (now : ℚ) (m : List ℕ) :
    ((matchTracks tracks cs now m).asg.map Prod.snd).Nodup ∧
      ∀ i ∈ (matchTracks tracks cs now m).asg.map Prod.snd, i ∉ m := by
  induction tracks generalizing m with
  | nil => simp [matchTracks]
  | cons t rest ih =>
    obtain ⟨tid, tr⟩ := t
    rw [matchTracks]
    cases hscan : scanCentroids cs m tr.position none with
    | none => exact ih m
    | some a =>
      obtain ⟨d, idx, pt⟩ := a
      obtain ⟨hnd, hfr⟩ := ih (idx :: m)
      have hidx : idx ∉ m := by
        rcases scan_some_spec cs m tr.position none d idx pt hscan with habs | hok
        · exact absurd habs (by simp)
        · exact hok.2.1
      refine ⟨?_, ?_⟩
      · simp only [List.map_cons, List.nodup_cons]
        refine ⟨fun hmem => ?_, hnd⟩
        exact (hfr idx hmem) (List.mem_cons_self _ _)
      · intro i hi
        simp only [List.map_cons, List.mem_cons] at hi
        rcases hi with rfl | hi
        · exact hidx
        · exact fun hmm => (hfr i hi) (List.mem_cons_of_mem _ hmm)

/-- The assigned track ids form a sublist of the input track ids. -/
theorem mt_asg_fst_sublist (tracks : List (ℕ × Track))
    (cs : List (ℕ × (ℤ × ℤ))) (now : ℚ) (m : List ℕ) :
    ((matchTracks tracks cs now m).asg.map Prod.fst).Sublist
      (tracks.map Prod.fst) := by
  induction tracks generalizing m with
  | nil => simp [matchTracks]
  | cons t rest ih =>
    obtain ⟨tid, tr⟩ := t
    rw [matchTracks]
    cases hscan : scanCentroids cs m tr.position none with
    | none => exact (ih m).trans (List.sublist_cons_self _ _)
    | some a =>
      obtain ⟨d, idx, pt⟩ := a
      simpa using List.Sublist.cons₂ tid (ih (idx :: m))

/-- Every surviving track entry is an input track whose position was
replaced by its assigned centroid and whose last-seen became `now`. -/
theorem mt_tracks_spec (tracks : List (ℕ × Track)) (cs : List (ℕ × (ℤ × ℤ)))
    (now : ℚ) (m : List ℕ) :
    ∀ e ∈ (matchTracks tracks cs now m).tracks,
      ∃ tr idx pt, (e.1, tr) ∈ tracks ∧ (e.1, idx) ∈ (matchTracks tracks cs now m).asg ∧
        (idx, pt) ∈ cs ∧ e.2 = { tr with position := pt, last_seen := now } := by
  induction tracks generalizing m with
  | nil => intro e he; exact absurd he (by simp [matchTracks])
  | cons t rest ih =>
    obtain ⟨tid, tr⟩ := t
    rw [matchTracks]
    cases hscan : scanCentroids cs m tr.position none with
    | none =>
      intro e he
      obtain ⟨tr', idx, pt, h1, h2, h3, h4⟩ := ih m e he
      exact ⟨tr', idx, pt, List.mem_cons_of_mem _ h1, h2, h3, h4⟩
    | some a =>
      obtain ⟨d, idx, pt⟩ := a
      intro e he
      rcases List.mem_cons.mp he with heq | hmem
      · subst heq
        have hcs : (idx, pt) ∈ cs := by
          rcases scan_some_spec cs m tr.position none d idx pt hscan with habs | hok
          · exact absurd habs (by simp)
          · exact hok.1
        exact ⟨tr, idx, pt, List.mem_cons_self _ _, List.mem_cons_self _ _, hcs, rfl⟩
      · obtain ⟨tr', idx', pt', h1, h2, h3, h4⟩ := ih (idx :: m) e hmem
        exact ⟨tr', idx', pt', List.mem_cons_of_mem _ h1,
          List.mem_cons_of_mem _ h2, h3, h4⟩

/-- The final matched set consists of the assigned centroid indices
together with the initially matched ones. -/
theorem mt_matched_mem (tracks : List (ℕ × Track)) (cs : List (ℕ × (ℤ × ℤ)))
    (now : ℚ) (m : List ℕ) (x : ℕ) :
    x ∈ (matchTracks tracks cs now m).matched ↔
      x ∈ (matchTracks tracks cs now m).asg.map Prod.snd ∨ x ∈ m := by
  induction tracks generalizing m with
  | nil => simp [matchTracks]
  | cons t rest ih =>
    obtain ⟨tid, tr⟩ := t
    rw [matchTracks]
    cases hscan : scanCentroids cs m tr.position none with
    | none => exact ih m
    | some a =>
      obtain ⟨d, idx, pt⟩ := a
      simp only [List.map_cons, List.mem_cons]
      rw [ih (idx :: m)]
      simp only [List.mem_cons]
      tauto

/-! ## Lemmas about the new-track loop -/

/-- New-track ids are strictly above the incoming counter, bounded by the
final counter, strictly increasing in insertion order; the counter never
decreases. -/
theorem sn_bounds (cs : List (ℕ × (ℤ × ℤ))) (m : List ℕ) (ctr : ℕ) (now : ℚ) :
    ctr ≤ (spawnNew cs m ctr now).2 ∧
    (∀ k ∈ (spawnNew cs m ctr now).1.map Prod.fst,
        ctr < k ∧ k ≤ (spawnNew cs m ctr now).2) ∧
    ((spawnNew cs m ctr now).1.map Prod.fst).Sorted (· < ·) := by
  induction cs generalizing ctr with
  | nil => simp [spawnNew]
  | cons c rest ih =>
    obtain ⟨idx, pos⟩ := c
    rw [spawnNew]
    by_cases hm : idx ∈ m
    · rw [if_pos hm]
      exact ih ctr
    · rw [if_neg hm]
      obtain ⟨h1, h2, h3⟩ := ih (ctr + 1)
      simp only [List.map_cons, List.mem_cons]
      refine ⟨by omega, ?_, ?_⟩
      · rintro k (rfl | hk)
        · exact ⟨Nat.lt_succ_self _, h1⟩
        · have := h2 k hk
          omega
      · rw [List.sorted_cons]
        exact ⟨fun b hb => (h2 b hb).1, h3⟩

/-- Exactly one new track per unmatched centroid: the spawned tracks'
positions are, in order, the positions of the unmatched centroids, and
every spawned track has entry time and last-seen equal to `now`. -/
theorem sn_positions (cs : List (ℕ × (ℤ × ℤ))) (m : List ℕ) (ctr : ℕ) (now : ℚ) :
    ((spawnNew cs m ctr now).1.map (fun e => e.2.position))
        = (cs.filter (fun c => decide (c.1 ∉ m))).map Prod.snd ∧
      ∀ e ∈ (spawnNew cs m ctr now).1, e.2.entry_time = now ∧ e.2.last_seen = now := by
  induction cs generalizing ctr with
  | nil => simp [spawnNew]
  | cons c rest ih =>
    obtain ⟨idx, pos⟩ := c
    rw [spawnNew]
    by_cases hm : idx ∈ m
    · rw [if_pos hm]
      obtain ⟨ha, hb⟩ := ih ctr
      refine ⟨?_, hb⟩
      rw [ha, List.filter_cons]
      simp [hm]
    · rw [if_neg hm]
      obtain ⟨ha, hb⟩ := ih (ctr + 1)
      constructor
      · simp only [List.map_cons]
        rw [ha, List.filter_cons]
        simp [hm]
      · intro e hmem
        rcases List.mem_cons.mp hmem with rfl | he
        · exact ⟨rfl, rfl⟩
        · exact hb e he

/-! ## Unfolding `update` and `update_tracks` -/

theorem update_tracks_def (s : AnalyticsState) (dets : List Det) (now : ℚ) :
    (update_tracks s dets now).person_tracks
        = (matchTracks s.person_tracks (centroidsOf dets) now []).tracks
          ++ (spawnNew (centroidsOf dets) (matchedOf s dets now) s.track_counter now).1 ∧
    (update_tracks s dets now).track_counter
        = (spawnNew (centroidsOf dets) (matchedOf s dets now) s.track_counter now).2 :=
  ⟨rfl, rfl⟩

/-- The function `update` with people counting enabled changes tracks and counter
exactly as `_update_tracks` does on the incoming state. -/
theorem update_fields (s : AnalyticsState) (dets : List Det) (now : ℚ) :
    (update true s dets now).1.person_tracks = (update_tracks s dets now).person_tracks ∧
    (update true s dets now).1.track_counter = (update_tracks s dets now).track_counter :=
  ⟨rfl, rfl⟩

/-! ## Claims -/

/-- C1: In every single `_update_tracks` call (the tracking step of
`AnalyticsModule.update`) on any detections and any existing track set
with distinct ids: no incoming centroid is assigned to more than one
track (the assigned centroid indices are pairwise distinct), no track is
assigned more than one centroid (the assigned track ids are pairwise
distinct), and each unmatched centroid spawns exactly one new track — the
spawned tracks correspond one-to-one, in order, to the unmatched
centroids. -/
theorem claim_C1 (s : AnalyticsState) (dets : List Det) (now : ℚ)
    (hkeys : (s.person_tracks.map Prod.fst).Nodup) :
    ((asgOf s dets now).map Prod.snd).Nodup ∧
    ((asgOf s dets now).map Prod.fst).Nodup ∧
    ((spawnNew (centroidsOf dets) (matchedOf s dets now) s.track_counter now).1.map
        (fun e => e.2.position))
      = ((centroidsOf dets).filter
          (fun c => decide (c.1 ∉ matchedOf s dets now))).map Prod.snd := by
  refine ⟨(mt_asg_snd_nodup s.person_tracks (centroidsOf dets) now []).1, ?_,
    (sn_positions (centroidsOf dets) (matchedOf s dets now) s.track_counter now).1⟩
  exact (mt_asg_fst_sublist s.person_tracks (centroidsOf dets) now []).nodup hkeys

/-- Witness for C1 at a concrete input: one existing track at (100,100),
two detections with centroids (100,100) and (2,2). -/
theorem claim_C1_witness :
    ((([(1, (⟨(100, 100), 0, 0⟩ : Track))]).map Prod.fst).Nodup) ∧
    (((asgOf ⟨[(1, ⟨(100, 100), 0, 0⟩)], 1, 0, []⟩ [⟨90, 90, 110, 110⟩, ⟨0, 0, 4, 4⟩] 1).map Prod.snd).Nodup ∧
    ((asgOf ⟨[(1, ⟨(100, 100), 0, 0⟩)], 1, 0, []⟩ [⟨90, 90, 110, 110⟩, ⟨0, 0, 4, 4⟩] 1).map Prod.fst).Nodup ∧
    ((spawnNew (centroidsOf [⟨90, 90, 110, 110⟩, ⟨0, 0, 4, 4⟩])
        (matchedOf ⟨[(1, ⟨(100, 100), 0, 0⟩)], 1, 0, []⟩ [⟨90, 90, 110, 110⟩, ⟨0, 0, 4, 4⟩] 1) 1 1).1.map
        (fun e => e.2.position))
      = ((centroidsOf [⟨90, 90, 110, 110⟩, ⟨0, 0, 4, 4⟩]).filter
          (fun c => decide (c.1 ∉ matchedOf ⟨[(1, ⟨(100, 100), 0, 0⟩)], 1, 0, []⟩ [⟨90, 90, 110, 110⟩, ⟨0, 0, 4, 4⟩] 1))).map Prod.snd) :=
  ⟨by decide, claim_C1 ⟨[(1, ⟨(100, 100), 0, 0⟩)], 1, 0, []⟩ [⟨90, 90, 110, 110⟩, ⟨0, 0, 4, 4⟩] 1 (by decide)⟩

/-- C2: Immediate eviction.  Under the class invariant that every existing
track id was issued by the counter: (a) every track present after
`_update_tracks` either was matched this call (its id is in the
assignment) or is newly spawned (id above the old counter); (b) a track is
matched only to a centroid of this call at squared distance < 2500
(distance < 50) from its old position; (c) every pre-existing track that
is not matched in this call is absent from the track set when the call
returns — eviction happens in the same call, with no grace period. -/
theorem claim_C2 (s : AnalyticsState) (dets : List Det) (now : ℚ)
    (hids : ∀ e ∈ s.person_tracks, e.1 ≤ s.track_counter) :
    (∀ e ∈ (update_tracks s dets now).person_tracks,
        e.1 ∈ (asgOf s dets now).map Prod.fst ∨ s.track_counter < e.1) ∧
    (∀ a ∈ asgOf s dets now, ∃ tr, (a.1, tr) ∈ s.person_tracks ∧
        ∃ pt, (a.2, pt) ∈ centroidsOf dets ∧ d2 pt tr.position < 2500) ∧
    (∀ e ∈ s.person_tracks, e.1 ∉ (asgOf s dets now).map Prod.fst →
        e.1 ∉ (update_tracks s dets now).person_tracks.map Prod.fst) := by
  obtain ⟨hpt, _⟩ := update_tracks_def s dets now
  refine ⟨?_, ?_, ?_⟩
  · intro e he
    rw [hpt] at he
    rcases List.mem_append.mp he with hl | hr
    · left
      have hm : e.1 ∈ (matchTracks s.person_tracks (centroidsOf dets) now []).tracks.map Prod.fst :=
        List.mem_map_of_mem _ hl
      rw [mt_tracks_keys] at hm
      exact hm
    · right
      have hm : e.1 ∈ (spawnNew (centroidsOf dets) (matchedOf s dets now) s.track_counter now).1.map Prod.fst :=
        List.mem_map_of_mem _ hr
      exact ((sn_bounds (centroidsOf dets) (matchedOf s dets now) s.track_counter now).2.1 _ hm).1
  · intro a ha
    obtain ⟨_, tr, h1, pt, h2, h3⟩ :=
      mt_asg_spec s.person_tracks (centroidsOf dets) now [] a ha
    exact ⟨tr, h1, pt, h2, h3⟩
  · intro e he hnot
    rw [hpt, List.map_append]
    intro hmem
    rcases List.mem_append.mp hmem with hl | hr
    · rw [mt_tracks_keys] at hl
      exact hnot hl
    · have h1 := ((sn_bounds (centroidsOf dets) (matchedOf s dets now) s.track_counter now).2.1 _ hr).1
      have h2 := hids e he
      omega

/-- Witness for C2 at a concrete input: one existing track at (0,0) and a
single detection with centroid (210,210), far outside the radius. -/
theorem claim_C2_witness :
    (∀ e ∈ ([(1, (⟨(0, 0), 0, 0⟩ : Track))]), e.1 ≤ 1) ∧
    ((∀ e ∈ (update_tracks ⟨[(1, ⟨(0, 0), 0, 0⟩)], 1, 0, []⟩ [⟨200, 200, 220, 220⟩] 5).person_tracks,
        e.1 ∈ (asgOf ⟨[(1, ⟨(0, 0), 0, 0⟩)], 1, 0, []⟩ [⟨200, 200, 220, 220⟩] 5).map Prod.fst ∨ 1 < e.1) ∧
    (∀ a ∈ asgOf ⟨[(1, ⟨(0, 0), 0, 0⟩)], 1, 0, []⟩ [⟨200, 200, 220, 220⟩] 5,
        ∃ tr, (a.1, tr) ∈ ([(1, (⟨(0, 0), 0, 0⟩ : Track))]) ∧
        ∃ pt, (a.2, pt) ∈ centroidsOf [⟨200, 200, 220, 220⟩] ∧ d2 pt tr.position < 2500) ∧
    (∀ e ∈ ([(1, (⟨(0, 0), 0, 0⟩ : Track))]),
        e.1 ∉ (asgOf ⟨[(1, ⟨(0, 0), 0, 0⟩)], 1, 0, []⟩ [⟨200, 200, 220, 220⟩] 5).map Prod.fst →
        e.1 ∉ (update_tracks ⟨[(1, ⟨(0, 0), 0, 0⟩)], 1, 0, []⟩ [⟨200, 200, 220, 220⟩] 5).person_tracks.map Prod.fst)) :=
  ⟨by decide, claim_C2 ⟨[(1, ⟨(0, 0), 0, 0⟩)], 1, 0, []⟩ [⟨200, 200, 220, 220⟩] 5 (by decide)⟩

/-- C3: Scenario.  From the empty tracker, an update with person
detections centred at (100,100) and (500,500) creates tracks 1 and 2; a
subsequent update with one detection centred at (105,102) keeps track 1
with updated position (105,102) and refreshed last-seen, removes track 2,
reports an active-track count of 1, and creates no new track (the counter
stays at 2). -/
theorem claim_C3 :
    (update true initState [⟨90, 90, 110, 110⟩, ⟨490, 490, 510, 510⟩] 1).1.person_tracks
        = [(1, ⟨(100, 100), 1, 1⟩), (2, ⟨(500, 500), 1, 1⟩)] ∧
    (update true (update true initState [⟨90, 90, 110, 110⟩, ⟨490, 490, 510, 510⟩] 1).1
        [⟨100, 100, 110, 104⟩] 2).1.person_tracks
        = [(1, ⟨(105, 102), 1, 2⟩)] ∧
    (update true (update true initState [⟨90, 90, 110, 110⟩, ⟨490, 490, 510, 510⟩] 1).1
        [⟨100, 100, 110, 104⟩] 2).2.active_tracks = 1 ∧
    (update true (update true initState [⟨90, 90, 110, 110⟩, ⟨490, 490, 510, 510⟩] 1).1
        [⟨100, 100, 110, 104⟩] 2).1.track_counter = 2 := by
  decide

/-- C4: The reported average dwell time is `0.0` when there are no active
tracks, and otherwise is the arithmetic mean of `now - entry_time` over
exactly the currently active tracks (stated both as the quotient by the
track count and, equivalently, product form). -/
theorem claim_C4 (tracks : List (ℕ × Track)) (now : ℚ) :
    (tracks = [] → calculate_avg_dwell_time tracks now = 0) ∧
    (tracks ≠ [] →
      calculate_avg_dwell_time tracks now
          = (tracks.map (fun e => now - e.2.entry_time)).sum / tracks.length ∧
        calculate_avg_dwell_time tracks now * tracks.length
          = (tracks.map (fun e => now - e.2.entry_time)).sum) := by
  constructor
  · intro h
    rw [calculate_avg_dwell_time, if_pos h]
  · intro h
    have hlen : (tracks.length : ℚ) ≠ 0 := by
      exact_mod_cast fun hh => h (List.length_eq_zero.mp hh)
    rw [calculate_avg_dwell_time, if_neg h]
    exact ⟨rfl, div_mul_cancel₀ _ hlen⟩

/-- Witness for C4: the empty track set and a singleton track set with
entry time 2 evaluated at time 5. -/
theorem claim_C4_witness :
    (calculate_avg_dwell_time ([] : List (ℕ × Track)) 5 = 0) ∧
    (calculate_avg_dwell_time [(1, ⟨(0, 0), 2, 2⟩)] 5
        = (([((1 : ℕ), (⟨(0, 0), 2, 2⟩ : Track))]).map (fun e => 5 - e.2.entry_time)).sum
            / (([((1 : ℕ), (⟨(0, 0), 2, 2⟩ : Track))]).length) ∧
      calculate_avg_dwell_time [(1, ⟨(0, 0), 2, 2⟩)] 5
          * (([((1 : ℕ), (⟨(0, 0), 2, 2⟩ : Track))]).length)
        = (([((1 : ℕ), (⟨(0, 0), 2, 2⟩ : Track))]).map (fun e => 5 - e.2.entry_time)).sum) :=
  ⟨(claim_C4 [] 5).1 rfl, (claim_C4 [(1, ⟨(0, 0), 2, 2⟩)] 5).2 (by decide)⟩

/-- Counterexample to C5 as stated: `reset_statistics` sets
`track_counter` back to 0, so the first update issues track id 1, and the
first update after a `reset_statistics` issues track id 1 again — the new
id is not strictly greater than every id issued before. -/
theorem claim_C5_counterexample :
    spawnedKeys initState [⟨0, 0, 2, 2⟩] 1 = [1] ∧
    spawnedKeys (reset_statistics (update true initState [⟨0, 0, 2, 2⟩] 1).1)
        [⟨0, 0, 2, 2⟩] 2 = [1] := by
  decide

/-- The ids issued along an update-only run all exceed the starting
counter. -/
theorem issued_lb (ops : List (List Det × ℚ)) (s : AnalyticsState) :
    ∀ k ∈ issuedAlong s ops, s.track_counter < k := by
  induction ops generalizing s with
  | nil => intro k hk; exact absurd hk (by simp [issuedAlong])
  | cons op ops ih =>
    obtain ⟨dets, now⟩ := op
    intro k hk
    rw [issuedAlong] at hk
    rcases List.mem_append.mp hk with h1 | h2
    · exact ((sn_bounds (centroidsOf dets) (matchedOf s dets now) s.track_counter now).2.1 _ h1).1
    · have hlt := ih _ _ h2
      have hle : s.track_counter ≤ (update true s dets now).1.track_counter := by
        rw [(update_fields s dets now).2, (update_tracks_def s dets now).2]
        exact (sn_bounds (centroidsOf dets) (matchedOf s dets now) s.track_counter now).1
      omega

/-- C5 (amended): Within any sequence of `update` calls with no
intervening `reset_statistics`, the issued track ids, in creation order,
are strictly increasing — every newly created track id is strictly
greater than every id issued earlier in the sequence, so ids are never
reused.  (`reset_statistics` zeroes the counter and breaks this across
resets, as the counterexample shows.) -/
theorem claim_C5 (s : AnalyticsState) (ops : List (List Det × ℚ)) :
    (issuedAlong s ops).Sorted (· < ·) := by
  induction ops generalizing s with
  | nil => simp [issuedAlong]
  | cons op ops ih =>
    obtain ⟨dets, now⟩ := op
    rw [issuedAlong, List.Sorted, List.pairwise_append]
    refine ⟨(sn_bounds (centroidsOf dets) (matchedOf s dets now) s.track_counter now).2.2,
      ih _, ?_⟩
    intro a ha b hb
    have h1 := ((sn_bounds (centroidsOf dets) (matchedOf s dets now) s.track_counter now).2.1 _ ha).2
    have h2 := issued_lb ops _ b hb
    have h3 : (update true s dets now).1.track_counter
        = (spawnNew (centroidsOf dets) (matchedOf s dets now) s.track_counter now).2 := by
      rw [(update_fields s dets now).2, (update_tracks_def s dets now).2]
    omega

/-- Counterexample to C6 as stated: with the pipeline RUNNING, counter 5
and window start 0, a `/api/status` read at time 2 invokes `get_fps`,
which resets `fps_counter` to 0 — the processed-frame/FPS counter
decreases across a status read while RUNNING. -/
theorem claim_C6_counterexample :
    (status_route ⟨true, 5, 0⟩ 2).fps_counter < (CameraApp.mk true 5 0).fps_counter ∧
    (CameraApp.mk true 5 0).running = true := by
  refine ⟨?_, rfl⟩
  have h : status_route ⟨true, 5, 0⟩ 2 = ⟨true, 0, 2⟩ := by
    simp only [status_route, get_fps]
    rw [if_pos (show (1 : ℚ) < 2 - 0 by norm_num)]
  rw [h]
  decide

/-- C6 (amended): `fps_counter` (used both as `frames_processed` and as
the FPS numerator) is incremented by exactly one on each processed frame
and is otherwise non-decreasing, except that any operation invoking
`get_fps` (both frame processing and status reads) when more than one
second has elapsed since the window start resets it: a status read sets
it to 0 and a processed frame then leaves it at 1.  While STOPPED the
processing loop does not run, but a status read can still reset the
counter. -/
theorem claim_C6 (s : CameraApp) (now : ℚ) :
    ((status_route s now).fps_counter = s.fps_counter ∨
      (1 < now - s.last_fps_time ∧ (status_route s now).fps_counter = 0)) ∧
    ((process_frame_fps s now).fps_counter = s.fps_counter + 1 ∨
      (1 < now - s.last_fps_time ∧ (process_frame_fps s now).fps_counter = 1)) := by
  by_cases h : 1 < now - s.last_fps_time <;>
    simp [status_route, process_frame_fps, get_fps, h]

/-- Counterexample to C7 as stated: from the fresh state, one update in
wall-clock second 0 and a second update in wall-clock second 100 are both
recorded under history bin 0 — the bin is derived from the frame counter,
not from the wall-clock second of the update. -/
theorem claim_C7_counterexample :
    ((update true (update true initState [⟨0, 0, 2, 2⟩] 0).1 [⟨0, 0, 2, 2⟩]
        100).1.people_count_history.map Prod.fst) = [0] := by
  decide

/-- C7 (amended): each `update` records the person count under the
history key `frame_count / 30` (the post-increment frame counter in
groups of 30 frames — a 30 FPS approximation of seconds), overwriting
that bin; the key is entirely independent of the wall-clock time at which
the update occurs. -/
theorem claim_C7 (enable_counting : Bool) (s : AnalyticsState)
    (dets : List Det) (now now' : ℚ) :
    (update enable_counting s dets now).1.people_count_history
        = setBin s.people_count_history ((s.frame_count + 1) / 30) dets.length ∧
    (update enable_counting s dets now).1.people_count_history
        = (update enable_counting s dets now').1.people_count_history := by
  cases enable_counting <;> exact ⟨rfl, rfl⟩

/-! ## Heatmap invariants -/

theorem paint_pres (mw mh : ℕ) (c : ℤ × ℤ) (hm : ℕ → ℕ → ℚ)
    (h : ∀ x y, hm x y = 0 ∨ hm x y = 1) (x y : ℕ) :
    paintDisc mw mh c hm x y = 0 ∨ paintDisc mw mh c hm x y = 1 := by
  unfold paintDisc
  split
  · exact Or.inr rfl
  · exact h x y

theorem uh_pres (mw mh fw fh : ℕ) (dets : List Det) (hm : ℕ → ℕ → ℚ)
    (h : ∀ x y, hm x y = 0 ∨ hm x y = 1) (x y : ℕ) :
    update_heatmap mw mh fw fh dets hm x y = 0 ∨
      update_heatmap mw mh fw fh dets hm x y = 1 := by
  induction dets generalizing hm with
  | nil => exact h x y
  | cons d rest ih =>
    rw [update_heatmap]
    exact ih _ (paint_pres mw mh _ hm h)

theorem heat_ops_pres (mw mh : ℕ) (ops : List HeatOp) (hm : ℕ → ℕ → ℚ)
    (h : ∀ x y, hm x y = 0 ∨ hm x y = 1) (x y : ℕ) :
    ops.foldl (applyHeatOp mw mh) hm x y = 0 ∨
      ops.foldl (applyHeatOp mw mh) hm x y = 1 := by
  induction ops generalizing hm with
  | nil => exact h x y
  | cons op rest ih =>
    rw [List.foldl_cons]
    refine ih _ ?_
    cases op with
    | update fw fh dets => exact uh_pres mw mh fw fh dets hm h
    | reset => exact fun _ _ => Or.inl rfl

/-- Every reachable heatmap cell value is exactly 0 or exactly 1. -/
theorem heat_vals (mw mh : ℕ) (ops : List HeatOp) (x y : ℕ) :
    runHeat mw mh ops x y = 0 ∨ runHeat mw mh ops x y = 1 :=
  heat_ops_pres mw mh ops _ (fun _ _ => Or.inl rfl) x y

theorem paint_mono (mw mh : ℕ) (c : ℤ × ℤ) (hm : ℕ → ℕ → ℚ)
    (h : ∀ x y, hm x y = 0 ∨ hm x y = 1) (x y : ℕ) :
    hm x y ≤ paintDisc mw mh c hm x y := by
  unfold paintDisc
  split
  · rcases h x y with h0 | h1
    · rw [h0]; norm_num
    · rw [h1]
  · exact le_refl _

theorem uh_mono (mw mh fw fh : ℕ) (dets : List Det) (hm : ℕ → ℕ → ℚ)
    (h : ∀ x y, hm x y = 0 ∨ hm x y = 1) (x y : ℕ) :
    hm x y ≤ update_heatmap mw mh fw fh dets hm x y := by
  induction dets generalizing hm with
  | nil => exact le_refl _
  | cons d rest ih =>
    rw [update_heatmap]
    exact le_trans (paint_mono mw mh _ hm h x y)
      (ih _ (paint_pres mw mh _ hm h))

/-- C8: For every sequence of heatmap updates and resets: every grid
value is non-negative; appending one more update to any history never
decreases any cell (so between two resets values are monotonically
non-decreasing across update calls); and immediately after `reset_heatmap`
every cell is exactly 0. -/
theorem claim_C8 (mw mh : ℕ) (ops : List HeatOp) (x y : ℕ) :
    0 ≤ runHeat mw mh ops x y ∧
    (∀ fw fh dets,
      runHeat mw mh ops x y ≤ runHeat mw mh (ops ++ [HeatOp.update fw fh dets]) x y) ∧
    runHeat mw mh (ops ++ [HeatOp.reset]) x y = 0 := by
  refine ⟨?_, ?_, ?_⟩
  · rcases heat_vals mw mh ops x y with h | h <;> simp [h]
  · intro fw fh dets
    have hstep : runHeat mw mh (ops ++ [HeatOp.update fw fh dets])
        = applyHeatOp mw mh (runHeat mw mh ops) (HeatOp.update fw fh dets) := by
      rw [runHeat, runHeat, List.foldl_append, List.foldl_cons, List.foldl_nil]
    rw [hstep]
    exact uh_mono mw mh fw fh dets _ (heat_vals mw mh ops) x y
  · rw [runHeat, List.foldl_append, List.foldl_cons, List.foldl_nil]
    rfl

/-- C10 (implicit): every heatmap cell only ever holds 0.0 or 1.0 — a
deposit overwrites the covered cells with the constant intensity 1.0
rather than adding to them, so repeated detections never raise a cell
above 1.0. -/
theorem claim_C10 (mw mh : ℕ) (ops : List HeatOp) (x y : ℕ) :
    runHeat mw mh ops x y = 0 ∨ runHeat mw mh ops x y = 1 :=
  heat_vals mw mh ops x y

/-- Counterexample to C9 as stated: with the `enable_face_recognition`
config flag set to `false` (face evaluation disabled) but the
`face_recognition` library available, one person present and one
unmatched face, `process_frame` still emits an `unknown_face` alert — the
flag is read in `SecurityModule.__init__` but never consulted. -/
theorem claim_C9_counterexample :
    unknown_face_alerts false true [⟨0, 0, 10, 10⟩] [⟨1, 2, 3, 4, "Unknown"⟩]
      = [⟨"unknown_face", "critical", "Unknown", (1, 2, 3, 4)⟩] := by
  decide

/-- C9 (amended): the gate is availability of the face-recognition
capability (the library handle), not the `enable_face_recognition`
config flag.  If the capability is available and at least one person is
detected, exactly one `unknown_face` alert is emitted per detected face
not matched against the known-face set, each of severity "critical"
carrying the name tag "Unknown" and the face's location; if the
capability is unavailable or no person is present, no alert is
emitted. -/
theorem claim_C9 (e avail : Bool) (dets : List Det) (faces : List Face) :
    (avail = true → 0 < dets.length →
      unknown_face_alerts e avail dets faces
        = (faces.filter (fun f => !f.is_known)).map
            (fun f => ⟨"unknown_face", "critical", f.name, (f.top, f.right, f.bottom, f.left)⟩)) ∧
    (∀ al ∈ unknown_face_alerts e avail dets faces,
        al.alert_type = "unknown_face" ∧ al.severity = "critical" ∧ al.name = "Unknown") ∧
    ((unknown_face_alerts e avail dets faces).length
        = if avail = true ∧ 0 < dets.length
          then (faces.filter (fun f => !f.is_known)).length else 0) ∧
    (avail = false ∨ dets = [] → unknown_face_alerts e avail dets faces = []) := by
  refine ⟨?_, ?_, ?_, ?_⟩
  · intro ha hd
    rw [unknown_face_alerts, if_pos ⟨by simp [ha], hd⟩]
  · intro al hal
    rw [unknown_face_alerts] at hal
    split at hal
    · obtain ⟨f, hf, rfl⟩ := List.mem_map.mp hal
      have hname : f.name = "Unknown" := by
        have := List.of_mem_filter hf
        simpa [Face.is_known] using this
      exact ⟨rfl, rfl, hname⟩
    · exact absurd hal (by simp)
  · rw [unknown_face_alerts]
    split
    · rw [List.length_map]
    · rfl
  · intro h
    rw [unknown_face_alerts, if_neg ?_]
    rcases h with h | h
    · rintro ⟨h1, _⟩
      rw [h] at h1
      exact Bool.false_ne_true h1
    · rintro ⟨_, h2⟩
      rw [h] at h2
      exact absurd h2 (by simp)

/-- Witness for C9 at a concrete input: capability available, one person,
one known face ("Ana") and one unknown face — exactly one alert. -/
theorem claim_C9_witness :
    unknown_face_alerts true true [⟨0, 0, 10, 10⟩] [⟨0, 0, 0, 0, "Ana"⟩, ⟨1, 2, 3, 4, "Unknown"⟩]
      = (([(⟨0, 0, 0, 0, "Ana"⟩ : Face), ⟨1, 2, 3, 4, "Unknown"⟩]).filter (fun f => !f.is_known)).map
          (fun f => ⟨"unknown_face", "critical", f.name, (f.top, f.right, f.bottom, f.left)⟩) :=
  (claim_C9 true true [⟨0, 0, 10, 10⟩] [⟨0, 0, 0, 0, "Ana"⟩, ⟨1, 2, 3, 4, "Unknown"⟩]).1 rfl
    (by decide)

end Camera
